import Mathlib

set_option maxRecDepth 100000

/-!
Shallow embedding of the content-extraction core of the OneNote exporter
(`src/OneNote_ExporterV3.7.py`, class `EnhancedOneNoteContentParser`, and the
PDF table segmentation of `src/app.py`, class `OneNoteContentParser`).

Conventions of the embedding:
* XML elements (`xml.etree.ElementTree.Element`) are modelled by the mutual
  inductive `Elem` / `ElemList`: tag string, attribute list, optional `text`,
  optional `tail`, ordered children.  The mutual list type keeps all
  recursions structural, so every definition evaluates by `rfl` / `decide`.
* Byte strings are `List Nat`, one entry per byte.
* Library calls whose own code is not part of the repository are either
  re-implemented faithfully on `List Char` (`str.strip`, `str.join`,
  `re.sub` whitespace collapsing, `str.split`, `int(...)`) or abstracted as a
  function parameter (`base64.b64decode` becomes a `decode` argument,
  `ET.fromstring` becomes a `parseXml` argument, and the text cleaner
  `_clean_text_content`, which is built on `html.unescape` and `re.sub`,
  becomes a `clean` argument).
* Python exceptions on the modelled paths are represented by `Option`.
-/

namespace OneNoteV37

/-- Model of the ASCII part of Python str whitespace, as used by
`str.strip()` and by the `\s` character class of `re`. -/
def pyIsSpace (c : Char) : Bool :=
  c == ' ' || c == '\t' || c == '\n' || c == '\r' || c == '\x0b' || c == '\x0c'

/-- Model of Python `str.strip()` on the character list. -/
def pyStripL (l : List Char) : List Char :=
  ((l.dropWhile pyIsSpace).reverse.dropWhile pyIsSpace).reverse

/-- Model of Python `str.strip()`. -/
def pyStrip (s : String) : String :=
  ⟨pyStripL s.data⟩

/-- Model of Python `sep.join(parts)`. -/
def strJoin (sep : String) : List String → String
  | [] => ""
  | [x] => x
  | x :: y :: rest => x ++ sep ++ strJoin sep (y :: rest)

/-- Replace every run of whitespace by a single space,
modelling `re.sub(r'\s+', ' ', s)` restricted to ASCII whitespace. -/
def collapseWs : List Char → List Char
  | [] => []
  | [c] => [if pyIsSpace c then ' ' else c]
  | c1 :: c2 :: rest =>
    if pyIsSpace c1 && pyIsSpace c2 then collapseWs (c2 :: rest)
    else (if pyIsSpace c1 then ' ' else c1) :: collapseWs (c2 :: rest)

/-- Model of `re.sub(r'\s+', ' ', s).strip()`, the final normalisation of
`_extract_cell_text_enhanced`. -/
def pySubWsStrip (s : String) : String :=
  ⟨pyStripL (collapseWs s.data)⟩

/-- Model of Python `str.upper()` (ASCII). -/
def pyUpper (s : String) : String :=
  ⟨s.data.map Char.toUpper⟩

/-- Model of Python `str.lower()` (ASCII). -/
def pyLower (s : String) : String :=
  ⟨s.data.map Char.toLower⟩

/-- Model of Python `str.capitalize()` (ASCII): first character upper-cased,
the rest lower-cased. -/
def pyCapitalize (s : String) : String :=
  match s.data with
  | [] => ""
  | c :: rest => ⟨c.toUpper :: rest.map Char.toLower⟩

/-- Value of a non-empty all-digit character list. -/
def digitsVal (l : List Char) : Option Nat :=
  if l ≠ [] ∧ l.all Char.isDigit then
    some (l.foldl (fun acc c => acc * 10 + (c.toNat - 48)) 0)
  else none

/-- Model of Python `int(s)` for decimal strings: surrounding whitespace is
stripped, an optional sign is allowed, and anything else fails (`none`
models the `ValueError`).  Digit-group underscores are not modelled. -/
def pyInt (s : String) : Option Int :=
  match pyStripL s.data with
  | '-' :: rest => (digitsVal rest).map (fun n => -(n : Int))
  | '+' :: rest => (digitsVal rest).map (fun n => (n : Int))
  | l => (digitsVal l).map (fun n => (n : Int))

/-- Model of Python `tag.split('}')[-1]`: the part of the string after the
last `}` (the whole string when there is none). -/
def splitLast (s : String) : String :=
  ⟨(s.data.reverse.takeWhile (fun c => c != '}')).reverse⟩

/-- Model of `tag_name.split('}')[-1] if '}' in tag_name else tag_name`
from `_process_content_in_original_order`. -/
def localNameOf (tag : String) : String :=
  if tag.data.contains '}' then splitLast tag else tag

/-- Contiguous-subsequence test: `containsSeq needle hay` is true exactly
when `needle` occurs consecutively inside `hay`. -/
def containsSeq {α : Type} [BEq α] (needle : List α) : List α → Bool
  | [] => needle.isEmpty
  | a :: t => needle.isPrefixOf (a :: t) || containsSeq needle t

/-- Model of Python `sub in s` (substring containment). -/
def strContains (s sub : String) : Bool :=
  containsSeq sub.data s.data

/-- The element-matching condition of `_findall_local`:
`tag.endswith('}'+local_name) or tag == local_name or
tag.split('}')[-1] == local_name`. -/
def tagMatches (tag name : String) : Bool :=
  ( '}' :: name.data).isSuffixOf tag.data || tag == name || splitLast tag == name

mutual
/-- Model of `xml.etree.ElementTree.Element`: tag, attribute mapping,
text, tail, ordered children. -/
inductive Elem : Type where
  | mk : String → List (String × String) → Option String → Option String → ElemList → Elem
/-- Children list of an `Elem`; a separate mutual type keeps recursion
over the tree structural. -/
inductive ElemList : Type where
  | nil : ElemList
  | cons : Elem → ElemList → ElemList
end

def ElemList.ofList : List Elem → ElemList
  | [] => .nil
  | e :: es => .cons e (ElemList.ofList es)

def ElemList.toList : ElemList → List Elem
  | .nil => []
  | .cons e es => e :: es.toList

def Elem.tag : Elem → String
  | .mk t _ _ _ _ => t

def Elem.attrs : Elem → List (String × String)
  | .mk _ a _ _ _ => a

def Elem.text : Elem → Option String
  | .mk _ _ tx _ _ => tx

def Elem.tailText : Elem → Option String
  | .mk _ _ _ tl _ => tl

def Elem.childrenL : Elem → ElemList
  | .mk _ _ _ _ cs => cs

/-- Direct children as a plain list (Python `for child in elem`). -/
def Elem.children (e : Elem) : List Elem :=
  e.childrenL.toList

/-- Model of `Element.get(name)`: attribute lookup. -/
def attrGet (e : Elem) (name : String) : Option String :=
  e.attrs.lookup name

mutual
/-- Model of `Element.iter()`: the element followed by all descendants in
document (pre-)order. -/
def iterElems : Elem → List Elem
  | .mk t a x tl cs => .mk t a x tl cs :: iterElemsL cs
def iterElemsL : ElemList → List Elem
  | .nil => []
  | .cons c cs => iterElems c ++ iterElemsL cs
end

/-- All proper descendants of an element in document (pre-)order; equals
`e.iter()` with the first yield (the element itself) removed. -/
def properDescendants (e : Elem) : List Elem :=
  iterElemsL e.childrenL

/-- Model of `_findall_local`: loop over `parent.iter()`; a matching element
is kept when `el is not parent or tag.split('}')[-1] != local_name`.  The
first yield of `iter()` is the only one identical to `parent`, so the
identity test is modelled by treating the head of the traversal
separately. -/
def findall_local (parent : Elem) (name : String) : List Elem :=
  (if tagMatches parent.tag name && !(splitLast parent.tag == name) then [parent] else [])
    ++ (properDescendants parent).filter (fun e => tagMatches e.tag name)

/-- Model of `_is_inside_element`.  The source walks `current.getparent()`
"while current is not None", but guards the step with
`hasattr(current, 'getparent')`; the elements come from
`xml.etree.ElementTree` (see the import `import xml.etree.ElementTree as
ET`), whose `Element` has no `getparent` attribute, so after inspecting
`element` itself the loop sets `current = None` and returns.  Hence only
the element's own tag is compared against the targets. -/
def is_inside_element (e : Elem) (targets : List String) : Bool :=
  targets.any (fun t => ( '}' :: t.data).isSuffixOf e.tag.data || e.tag == t)

mutual
/-- One step of `_process_content_in_original_order`: classify the node
(Table / Image / text-bearing OE or T), emit the corresponding unit, then
recurse into the children. -/
def processElement : Elem → List (String × Elem)
  | .mk t a x tl cs =>
    (let e := Elem.mk t a x tl cs
     let ln := localNameOf t
     if ln == "Table" then [("table", e)]
     else if ln == "Image" then [("image", e)]
     else if (ln == "OE" || ln == "T") && !(is_inside_element e ["Table"]) then [("text", e)]
     else []) ++ processElemList cs
def processElemList : ElemList → List (String × Elem)
  | .nil => []
  | .cons c cs => processElement c ++ processElemList cs
end

/-- Model of `_process_content_in_original_order`: the walk starts from the
root's children and emits `(unit kind, element)` pairs in document order. -/
def process_content_in_original_order (root : Elem) : List (String × Elem) :=
  processElemList root.childrenL

/-- State of `_extract_cell_text_enhanced`: the accumulated `text_parts`
and the `seen_texts` set (modelled as the insertion-ordered list). -/
def addTextPart (ct : String) (st : List String × List String) : List String × List String :=
  if ct ≠ "" ∧ ct ∉ st.2 then (st.1 ++ [ct], st.2 ++ [ct]) else st

/-- Stage 1 of `_extract_cell_text_enhanced`: each `T` descendant with truthy
text is cleaned and collected, skipping duplicates. -/
def cellTextStage1 (clean : String → String) (cell : Elem) : List String × List String :=
  (findall_local cell "T").foldl
    (fun st t =>
      match t.text with
      | some s => if s ≠ "" then addTextPart (clean s) st else st
      | none => st)
    ([], [])

mutual
/-- The inner `collect_text_recursive` of `_extract_cell_text_enhanced`:
collect the node's own text, then for each child recurse and collect the
child's tail text. -/
def collectTextRecursive (clean : String → String) :
    Elem → List String × List String → List String × List String
  | .mk _ _ tx _ cs, st =>
    let st1 := match tx with
      | some s => if s ≠ "" ∧ pyStrip s ≠ "" then addTextPart (clean s) st else st
      | none => st
    collectTextRecursiveL clean cs st1
def collectTextRecursiveL (clean : String → String) :
    ElemList → List String × List String → List String × List String
  | .nil, st => st
  | .cons c cs, st =>
    let st2 := collectTextRecursive clean c st
    let st3 := match c.tailText with
      | some s => if s ≠ "" ∧ pyStrip s ≠ "" then addTextPart (clean s) st2 else st2
      | none => st2
    collectTextRecursiveL clean cs st3
end

/-- Model of `_extract_cell_text_enhanced`.  `clean` abstracts
`_clean_text_content` (HTML unescaping, tag stripping, glyph
normalisation).  If no `T` descendant produced text, all text and tail
content of the subtree is collected recursively; the parts are joined by
single spaces and whitespace is normalised. -/
def extract_cell_text_enhanced (clean : String → String) (cell : Elem) : String :=
  let st1 := cellTextStage1 clean cell
  let st2 := if st1.1 = [] then collectTextRecursive clean cell st1 else st1
  pySubWsStrip (strJoin " " st2.1)

/-- The attribute-name loop of `_get_cell_span`: the first present, truthy
attribute is parsed with `int(...)`; a parse failure raises `ValueError`,
which the surrounding `try` turns into the default 1. -/
def getCellSpanAux (c : Elem) : List String → Int
  | [] => 1
  | a :: rest =>
    match attrGet c a with
    | some v =>
      if v ≠ "" then
        match pyInt v with
        | some k => k
        | none => 1
      else getCellSpanAux c rest
    | none => getCellSpanAux c rest

/-- Model of `_get_cell_span`: the span attribute is looked up under the
given casing, its upper-case form and its capitalised form. -/
def get_cell_span (c : Elem) (spanType : String) : Int :=
  getCellSpanAux c [spanType, pyUpper spanType, pyCapitalize spanType]

/-- The per-row cell loop of `_extract_table_data_enhanced`: for each cell
append its extracted text, then `colspan - 1` blank placeholder cells.
(The `rowspan` attribute is also read by the source but never used.) -/
def buildRowData (clean : String → String) : List Elem → List String
  | [] => []
  | c :: cs =>
    (extract_cell_text_enhanced clean c
        :: List.replicate ((get_cell_span c "colspan") - 1).toNat "")
      ++ buildRowData clean cs

/-- The row signature of `_extract_table_data_enhanced`:
`'|'.join(row_data[:3]) if len(row_data) >= 3 else '|'.join(row_data)`. -/
def rowSignature (row : List String) : String :=
  if 3 ≤ row.length then strJoin "|" (row.take 3) else strJoin "|" row

/-- The deduplication loop of `_extract_table_data_enhanced`: a row is kept
when it is non-empty, has some non-blank cell, and its signature has not
been seen; kept signatures are added to the seen set. -/
def dedupRows : List (List String) → List String → List (List String)
  | [], _ => []
  | row :: rest, seen =>
    if row ≠ [] ∧ row.any (fun c => pyStrip c != "") = true ∧ rowSignature row ∉ seen then
      row :: dedupRows rest (rowSignature row :: seen)
    else dedupRows rest seen

/-- Model of `_extract_table_data_enhanced`: all `Row` descendants in
document order, each row built from its `Cell` descendants, then
signature-based deduplication. -/
def extract_table_data_enhanced (clean : String → String) (table : Elem) : List (List String) :=
  dedupRows
    ((findall_local table "Row").map (fun r => buildRowData clean (findall_local r "Cell")))
    []

/-- The `supported_image_extensions` signature table, in its Python dict
insertion order (bytes as decimal values). -/
def supported_image_extensions : List (List Nat × String) :=
  [([255, 216, 255], ".jpg"),
   ([137, 80, 78, 71, 13, 10, 26, 10], ".png"),
   ([71, 73, 70, 56, 55, 97], ".gif"),
   ([71, 73, 70, 56, 57, 97], ".gif"),
   ([0, 0, 1, 0], ".ico"),
   ([66, 77], ".bmp"),
   ([82, 73, 70, 70], ".webp")]

/-- Model of `_detect_image_format`: first matching signature wins; a
residual check recognises `RIFF` data carrying a `WEBP` marker in the first
12 bytes; everything else defaults to `.png`. -/
def detect_image_format (data : List Nat) : String :=
  match supported_image_extensions.find? (fun p => p.1.isPrefixOf data) with
  | some p => p.2
  | none =>
    if [82, 73, 70, 70].isPrefixOf data && containsSeq [87, 69, 66, 80] (data.take 12) then
      ".webp"
    else ".png"

/-- Model of `_looks_like_base64`: shorter than 100 characters is rejected;
otherwise only the first 100 characters are tested against the base64
alphabet. -/
def looks_like_base64 (t : String) : Bool :=
  if t.length < 100 then false
  else (t.data.take 100).all (fun c => c.isAlpha || c.isDigit || c == '+' || c == '/' || c == '=')

/-- The attribute names probed by stage 1 of `_extract_image_data_enhanced`. -/
def imageAttributes : List String :=
  ["data", "Data", "binaryData", "base64Data", "imageData",
   "src", "source", "content", "bytes", "binary"]

/-- Shared accept step of `_extract_image_data_enhanced`: a successful
base64 decode is accepted only when it yields more than 100 bytes; the
format is then detected from the bytes.  `decode` abstracts
`base64.b64decode`, with `none` modelling a raised exception. -/
def tryDecode (decode : String → Option (List Nat)) (s : String) : Option (List Nat × String) :=
  match decode s with
  | some d => if 100 < d.length then some (d, detect_image_format d) else none
  | none => none

/-- Stage 1 of `_extract_image_data_enhanced`: known attributes. -/
def extractImageStage1 (decode : String → Option (List Nat)) (e : Elem) :
    Option (List Nat × String) :=
  imageAttributes.findSome? (fun attr =>
    match attrGet e attr with
    | some v => if v ≠ "" then tryDecode decode v else none
    | none => none)

/-- Stage 2 of `_extract_image_data_enhanced`: direct children whose tag
contains `data`, `binary` or `content` (case-insensitive). -/
def extractImageStage2 (decode : String → Option (List Nat)) (e : Elem) :
    Option (List Nat × String) :=
  e.children.findSome? (fun child =>
    match child.text with
    | some t =>
      if t ≠ "" ∧
          (["data", "binary", "content"].any (fun kw => strContains (pyLower child.tag) kw)) = true
      then tryDecode decode t
      else none
    | none => none)

/-- The per-descendant step of stage 3 of `_extract_image_data_enhanced`. -/
def imageStage3Step (decode : String → Option (List Nat)) (d : Elem) :
    Option (List Nat × String) :=
  match d.text with
  | some tx =>
    if tx ≠ "" then
      let t := pyStrip tx
      if 100 < t.length ∧ looks_like_base64 t = true then tryDecode decode t else none
    else none
  | none => none

/-- Stage 3 of `_extract_image_data_enhanced`: scan every proper descendant
(`descendant != img_elem` discards exactly the first yield of `iter()`,
which is the only one identical to the element) for base64-looking text. -/
def extractImageStage3 (decode : String → Option (List Nat)) (e : Elem) :
    Option (List Nat × String) :=
  (properDescendants e).findSome? (imageStage3Step decode)

/-- Model of `_extract_image_data_enhanced`: the three search stages in
order, first success wins. -/
def extract_image_data_enhanced (decode : String → Option (List Nat)) (e : Elem) :
    Option (List Nat × String) :=
  match extractImageStage1 decode e with
  | some r => some r
  | none =>
    match extractImageStage2 decode e with
    | some r => some r
    | none => extractImageStage3 decode e

/-- Model of `parse_page_to_docx`: `ET.fromstring` (abstracted as
`parseXml`) runs first inside the `try`; a parse failure lands in the
`except` and returns `False` before any document is built or saved.  On
success the content walk builds the document and `doc.save(out_path)`
writes the single output file, modelled as the returned file list. -/
def parse_page_to_docx (parseXml : String → Option Elem)
    (xml pageName outPath : String) :
    Bool × List (String × String × List (String × Elem)) :=
  match parseXml xml with
  | some root => (true, [(outPath, pageName, process_content_in_original_order root)])
  | none => (false, [])

/-- Model of `parse_page_to_pdf`: identical skeleton to
`parse_page_to_docx`; `ET.fromstring` is the first statement of the `try`,
and `doc.build(story)` writes the single output file only on success. -/
def parse_page_to_pdf (parseXml : String → Option Elem)
    (xml pageName outPath : String) :
    Bool × List (String × String × List (String × Elem)) :=
  match parseXml xml with
  | some root => (true, [(outPath, pageName, process_content_in_original_order root)])
  | none => (false, [])

/-! Concrete inputs used by the claim theorems, counterexamples and
witnesses below. -/

/-- An `OE` text node that sits inside a `Table` element. -/
def exOE : Elem := .mk "OE" [] (some "X") none .nil

/-- A `Table` element directly containing the `OE` text node. -/
def exTable : Elem := .mk "Table" [] none none (.cons exOE .nil)

/-- A page root whose only child is the table. -/
def exPage : Elem := .mk "Page" [] none none (.cons exTable .nil)

/-- A 145-character text whose first 100 characters are base64 letters but
whose 101st character `!` is outside the base64 alphabet. -/
def exB64Text : String := ⟨List.replicate 100 'A' ++ '!' :: List.replicate 44 'A'⟩

/-- A decode oracle for `exB64Text` returning 108 bytes, consistent with
`base64.b64decode`'s default behaviour of discarding non-alphabet
characters (144 remaining `A`s decode to 108 zero bytes). -/
def exDecode108 : String → Option (List Nat) :=
  fun s => if s == exB64Text then some (List.replicate 108 0) else none

/-- An `Image` element whose only descendant carries `exB64Text` as text. -/
def exImageElem : Elem :=
  .mk "Image" [] none none (.cons (.mk "v" [] (some exB64Text) none .nil) .nil)

/-- A decode oracle that always yields 3 bytes (fewer than 100). -/
def decodeTiny : String → Option (List Nat) := fun _ => some [0, 1, 2]

/-- An `Image` element carrying a candidate payload in its `data`
attribute. -/
def exImageAttrElem : Elem := .mk "Image" [("data", "AAAA")] none none .nil

/-- A parser that fails on every markup string. -/
def parseNone : String → Option Elem := fun _ => none

/-- A childless element whose tag `x}a}b` ends with `}` followed by the
name `a}b`. -/
def exBraceElem : Elem := .mk "x\x7da\x7db" [] none none .nil

/-- An outline element with one namespaced `Row` child. -/
def exOutline : Elem :=
  .mk "Outline" [] none none (.cons (.mk "\x7bns\x7dRow" [] none none .nil) .nil)

/-- A table cell with `colspan="3"` and one `T` text child. -/
def exCell : Elem :=
  .mk "Cell" [("colspan", "3")] none none (.cons (.mk "T" [] (some "A") none .nil) .nil)

end OneNoteV37

namespace AppPdf

/-- The per-table segment-width choice of `_tables_pdf_enhanced` in
`src/app.py`: up to 8 columns stay in one segment, up to 12 columns use
8-column segments, wider tables use 6-column segments. -/
def maxColsPerSegment (maxCols : Nat) : Nat :=
  if maxCols ≤ 8 then maxCols else if maxCols ≤ 12 then 8 else 6

/-- Fuel-driven model of Python `range(start, stop, step)` for positive
`step`; the fuel `stop - start` suffices because `start` grows by at least
one per step.  (Python raises on `step = 0`; that case returns `[]` here
and is outside every theorem below.) -/
def rangeStepAux : Nat → Nat → Nat → Nat → List Nat
  | 0, _, _, _ => []
  | fuel + 1, start, stop, step =>
    if 0 < step ∧ start < stop then start :: rangeStepAux fuel (start + step) stop step
    else []

/-- Model of `list(range(start, stop, step))` for positive `step`. -/
def rangeStep (start stop step : Nat) : List Nat :=
  rangeStepAux (stop - start) start stop step

/-- Model of `col_segments = list(range(0, max_cols, MAX_COLS_PER_SEGMENT))`. -/
def colSegments (maxCols : Nat) : List Nat :=
  rangeStep 0 maxCols (maxColsPerSegment maxCols)

/-- The widths of the column segments:
`end_col = min(start_col + MAX_COLS_PER_SEGMENT, max_cols)` minus
`start_col`, per segment start. -/
def segmentWidths (maxCols : Nat) : List Nat :=
  (colSegments maxCols).map (fun start => min (start + maxColsPerSegment maxCols) maxCols - start)

/-- The column slices `row[start_col:end_col]` taken from one (padded) row,
one slice per segment, in left-to-right order. -/
def segmentsOfRow (maxCols : Nat) (row : List String) : List (List String) :=
  (colSegments maxCols).map
    (fun start => (row.drop start).take (min (start + maxColsPerSegment maxCols) maxCols - start))

end AppPdf


/-! Theorems.  Helper lemmas come first; each claim has exactly one main
theorem, marked with the claim id in its doc comment. -/

namespace OneNoteV37

theorem dedupRows_sig_not_mem :
    ∀ (rows : List (List String)) (seen : List String) (r : List String),
      r ∈ dedupRows rows seen → rowSignature r ∉ seen := by
  intro rows
  induction rows with
  | nil =>
    intro seen r h
    simp [dedupRows] at h
  | cons row rest ih =>
    intro seen r h
    unfold dedupRows at h
    split at h
    case isTrue hc =>
      rcases List.mem_cons.mp h with h1 | h1
      · subst h1
        exact hc.2.2
      · intro hmem
        exact ih (rowSignature row :: seen) r h1 (List.mem_cons_of_mem _ hmem)
    case isFalse hc =>
      exact ih seen r h

theorem dedupRows_pairwise :
    ∀ (rows : List (List String)) (seen : List String),
      (dedupRows rows seen).Pairwise (fun r1 r2 => rowSignature r1 ≠ rowSignature r2) := by
  intro rows
  induction rows with
  | nil =>
    intro seen
    simp [dedupRows]
  | cons row rest ih =>
    intro seen
    unfold dedupRows
    split
    case isTrue hc =>
      refine List.Pairwise.cons ?_ (ih _)
      intro b hb heq
      have := dedupRows_sig_not_mem rest (rowSignature row :: seen) b hb
      exact this (heq ▸ List.mem_cons_self _ _)
    case isFalse hc =>
      exact ih seen

/-- C1: for every table element (and every text cleaner) the extracted grid
contains no two rows sharing a signature, the signature being the `|`-join
of the first at-most-3 cells; and the rows
`[["A","B"], ["A","B"], ["C","D"]]` deduplicate to
`[["A","B"], ["C","D"]]`. -/
theorem extract_table_no_duplicate_signatures :
    (∀ (clean : String → String) (table : Elem),
      (extract_table_data_enhanced clean table).Pairwise
        (fun r1 r2 => rowSignature r1 ≠ rowSignature r2)) ∧
    dedupRows [["A", "B"], ["A", "B"], ["C", "D"]] [] = [["A", "B"], ["C", "D"]] := by
  constructor
  · intro clean table
    exact dedupRows_pairwise _ _
  · decide

/-- C2 (refuting evaluation): the walk over a page whose `Table` contains an
`OE` text node emits that `OE` node as a separate `text` unit, in addition
to the `table` unit.  `_is_inside_element` never reaches any ancestor
because `xml.etree.ElementTree` elements have no `getparent` attribute, so
the "not inside a Table" guard of the walker always passes. -/
theorem walker_emits_text_inside_table :
    process_content_in_original_order exPage = [("table", exTable), ("text", exOE)] := rfl

/-- C3: when the markup string fails to parse, both page conversions return
`success = false` and write no output file. -/
theorem parse_failure_yields_no_output (parseXml : String → Option Elem)
    (xml pageName outW outP : String) (h : parseXml xml = none) :
    parse_page_to_docx parseXml xml pageName outW = (false, []) ∧
    parse_page_to_pdf parseXml xml pageName outP = (false, []) := by
  constructor <;> simp [parse_page_to_docx, parse_page_to_pdf, h]

/-- Witness for C3 at a parser that fails on the concrete input. -/
theorem parse_failure_yields_no_output_witness :
    parseNone "<bad" = none ∧
    (parse_page_to_docx parseNone "<bad" "Page" "out.docx" = (false, []) ∧
     parse_page_to_pdf parseNone "<bad" "Page" "out.pdf" = (false, [])) :=
  ⟨rfl, parse_failure_yields_no_output parseNone "<bad" "Page" "out.docx" "out.pdf" rfl⟩

end OneNoteV37

namespace OneNoteV37

theorem buildRowData_append (clean : String → String) (xs ys : List Elem) :
    buildRowData clean (xs ++ ys) = buildRowData clean xs ++ buildRowData clean ys := by
  induction xs with
  | nil => simp [buildRowData]
  | cons c cs ih => simp [buildRowData, ih]

theorem get_cell_span_colspan (c : Elem) (v : String) (k : Int)
    (h1 : attrGet c "colspan" = some v) (h2 : v ≠ "") (h3 : pyInt v = some k) :
    get_cell_span c "colspan" = k := by
  unfold get_cell_span getCellSpanAux
  simp [h1, h2, h3]

/-- C4: a cell whose `colspan` attribute parses as an integer `k ≥ 1`
contributes its text immediately followed by exactly `k - 1` blank cells
to the row being built. -/
theorem colspan_inserts_blank_cells (clean : String → String)
    (cs1 cs2 : List Elem) (c : Elem) (v : String) (k : Nat)
    (h1 : attrGet c "colspan" = some v) (h2 : v ≠ "")
    (h3 : pyInt v = some (k : Int)) (h4 : 1 ≤ k) :
    buildRowData clean (cs1 ++ c :: cs2) =
      buildRowData clean cs1
        ++ extract_cell_text_enhanced clean c
        :: (List.replicate (k - 1) "" ++ buildRowData clean cs2) := by
  rw [buildRowData_append]
  have hs := get_cell_span_colspan c v (k : Int) h1 h2 h3
  have hk : (((k : Int)) - 1).toNat = k - 1 := by omega
  simp [buildRowData, hs, hk]

/-- Witness for C4 at a concrete cell with `colspan="3"`. -/
theorem colspan_inserts_blank_cells_witness :
    attrGet exCell "colspan" = some "3" ∧ ("3" : String) ≠ "" ∧
    pyInt "3" = some ((3 : Nat) : Int) ∧ 1 ≤ 3 ∧
    buildRowData (fun s => s) ([] ++ exCell :: []) =
      buildRowData (fun s => s) []
        ++ extract_cell_text_enhanced (fun s => s) exCell
        :: (List.replicate (3 - 1) "" ++ buildRowData (fun s => s) []) :=
  ⟨rfl, by decide, by decide, by decide,
    colspan_inserts_blank_cells (fun s => s) [] [] exCell "3" 3 rfl (by decide)
      (by decide) (by decide)⟩

theorem tryDecode_eq_none (decode : String → Option (List Nat))
    (h : ∀ s d, decode s = some d → d.length < 100) (s : String) :
    tryDecode decode s = none := by
  unfold tryDecode
  cases hd : decode s with
  | none => rfl
  | some d =>
    have hlt := h s d hd
    show (if 100 < d.length then some (d, detect_image_format d) else none) = none
    rw [if_neg (by omega)]

/-- C5: when every candidate payload decodes to fewer than 100 bytes,
image extraction returns `none`, regardless of the decoded content. -/
theorem small_decodes_never_extract (decode : String → Option (List Nat)) (e : Elem)
    (h : ∀ s d, decode s = some d → d.length < 100) :
    extract_image_data_enhanced decode e = none := by
  have h1 : extractImageStage1 decode e = none := by
    refine List.findSome?_eq_none_iff.mpr ?_
    intro attr _
    cases hg : attrGet e attr with
    | none => simp [hg]
    | some v => simp [hg, tryDecode_eq_none decode h, ite_self]
  have h2 : extractImageStage2 decode e = none := by
    refine List.findSome?_eq_none_iff.mpr ?_
    intro child _
    cases ht : child.text with
    | none => simp [ht]
    | some t => simp [ht, tryDecode_eq_none decode h, ite_self]
  have h3 : extractImageStage3 decode e = none := by
    refine List.findSome?_eq_none_iff.mpr ?_
    intro d _
    unfold imageStage3Step
    cases ht : d.text with
    | none => rfl
    | some tx => simp [tryDecode_eq_none decode h, ite_self]
  unfold extract_image_data_enhanced
  rw [h1, h2]
  exact h3

/-- Witness for C5 with a decoder that always yields 3 bytes. -/
theorem small_decodes_never_extract_witness :
    (∀ s d, decodeTiny s = some d → d.length < 100) ∧
    extract_image_data_enhanced decodeTiny exImageAttrElem = none := by
  have hh : ∀ s d, decodeTiny s = some d → d.length < 100 := by
    intro s d hd
    simp [decodeTiny] at hd
    subst hd
    decide
  exact ⟨hh, small_decodes_never_extract decodeTiny exImageAttrElem hh⟩

end OneNoteV37

namespace OneNoteV37

theorem exists_of_isPrefixOf {α : Type} [BEq α] [LawfulBEq α] :
    ∀ {l d : List α}, l.isPrefixOf d = true → ∃ t, d = l ++ t := by
  intro l
  induction l with
  | nil =>
    intro d _
    exact ⟨d, rfl⟩
  | cons a as ih =>
    intro d h
    cases d with
    | nil => simp [List.isPrefixOf] at h
    | cons b bs =>
      simp only [List.isPrefixOf, Bool.and_eq_true, beq_iff_eq] at h
      obtain ⟨rfl, h2⟩ := h
      obtain ⟨t, rfl⟩ := ih h2
      exact ⟨t, rfl⟩

/-- C6: data beginning with `FF D8 FF` is detected as `.jpg`, and data
matching none of the known signatures is detected as `.png`. -/
theorem detect_jpg_and_default_png :
    (∀ d : List Nat, [255, 216, 255].isPrefixOf d = true → detect_image_format d = ".jpg") ∧
    (∀ d : List Nat,
      supported_image_extensions.all (fun p => !(p.1.isPrefixOf d)) = true →
      detect_image_format d = ".png") := by
  constructor
  · intro d h
    unfold detect_image_format
    have hf : supported_image_extensions.find? (fun p => p.1.isPrefixOf d)
        = some ([255, 216, 255], ".jpg") := by
      unfold supported_image_extensions
      exact List.find?_cons_of_pos _ h
    rw [hf]
  · intro d h
    simp only [supported_image_extensions, List.all_cons, List.all_nil,
      Bool.and_eq_true, Bool.not_eq_true'] at h
    obtain ⟨h1, h2, h3, h4, h5, h6, h7, -⟩ := h
    unfold detect_image_format
    have hf : supported_image_extensions.find? (fun p => p.1.isPrefixOf d) = none := by
      refine List.find?_eq_none.mpr ?_
      intro p hp
      fin_cases hp <;> simp [h1, h2, h3, h4, h5, h6, h7]
    rw [hf, if_neg]
    simp [h7]

/-- Witness for C6 at a JPEG header and at unmatched data. -/
theorem detect_jpg_and_default_png_witness :
    ([255, 216, 255].isPrefixOf ([255, 216, 255, 7] : List Nat) = true ∧
      detect_image_format [255, 216, 255, 7] = ".jpg") ∧
    (supported_image_extensions.all (fun p => !(p.1.isPrefixOf ([1, 2, 3] : List Nat))) = true ∧
      detect_image_format [1, 2, 3] = ".png") :=
  ⟨⟨by decide, detect_jpg_and_default_png.1 [255, 216, 255, 7] (by decide)⟩,
   ⟨by decide, detect_jpg_and_default_png.2 [1, 2, 3] (by decide)⟩⟩

/-- C7 counterexample: 12 bytes beginning with `RIFF` and containing no
`WEBP` marker are detected as `.webp`, not `.png`: the `RIFF` entry of the
signature table fires before the WEBP-marker check can run. -/
theorem riff_without_webp_detects_webp :
    [82, 73, 70, 70].isPrefixOf ([82, 73, 70, 70, 0, 0, 0, 0, 0, 0, 0, 0] : List Nat) = true ∧
    containsSeq [87, 69, 66, 80] (([82, 73, 70, 70, 0, 0, 0, 0, 0, 0, 0, 0] : List Nat).take 12)
      = false ∧
    detect_image_format [82, 73, 70, 70, 0, 0, 0, 0, 0, 0, 0, 0] = ".webp" ∧
    detect_image_format [82, 73, 70, 70, 0, 0, 0, 0, 0, 0, 0, 0] ≠ ".png" := by
  refine ⟨by decide, by decide, by decide, by decide⟩

/-- C7 as amended: every byte string beginning with `RIFF` is detected as
`.webp`, with or without a `WEBP` marker; the marker fallback in
`_detect_image_format` is unreachable. -/
theorem riff_prefix_always_webp (d : List Nat)
    (h : [82, 73, 70, 70].isPrefixOf d = true) :
    detect_image_format d = ".webp" := by
  obtain ⟨t, rfl⟩ := exists_of_isPrefixOf h
  show detect_image_format (82 :: 73 :: 70 :: 70 :: t) = ".webp"
  unfold detect_image_format supported_image_extensions
  simp [List.find?, List.isPrefixOf]

/-- Witness for the amended C7 at a bare `RIFF` header. -/
theorem riff_prefix_always_webp_witness :
    [82, 73, 70, 70].isPrefixOf ([82, 73, 70, 70] : List Nat) = true ∧
    detect_image_format [82, 73, 70, 70] = ".webp" :=
  ⟨by decide, riff_prefix_always_webp [82, 73, 70, 70] (by decide)⟩

/-- C8 counterexample: a 145-character text whose 101st character `!` is
outside the base64 alphabet still passes `_looks_like_base64` (which
examines only the first 100 characters) and is accepted by the
full-subtree stage as an image payload. -/
theorem stage3_accepts_invalid_char_after_100 :
    100 < exB64Text.length ∧
    looks_like_base64 exB64Text = true ∧
    exB64Text.data.all (fun c => c.isAlpha || c.isDigit || c == '+' || c == '/' || c == '=')
      = false ∧
    extract_image_data_enhanced exDecode108 exImageElem
      = some (List.replicate 108 0, ".png") := by
  refine ⟨by decide, by decide, by decide, by decide⟩

/-- C8 as amended: the stage-3 guard accepts a stripped text exactly when
it is longer than 100 characters and its first 100 characters are all
drawn from the base64 alphabet; characters past the 100th are not
examined. -/
theorem stage3_guard_checks_first_100_only (t : String) :
    (100 < t.length ∧ looks_like_base64 t = true) ↔
    (100 < t.length ∧
      (t.data.take 100).all (fun c => c.isAlpha || c.isDigit || c == '+' || c == '/' || c == '=')
        = true) := by
  unfold looks_like_base64
  constructor
  · rintro ⟨h1, h2⟩
    rw [if_neg (by omega)] at h2
    exact ⟨h1, h2⟩
  · rintro ⟨h1, h2⟩
    refine ⟨h1, ?_⟩
    rw [if_neg (by omega)]
    exact h2

end OneNoteV37

namespace AppPdf

/-- C9: the PDF column segmentation follows the banding rule (one segment
up to 8 columns, 8-wide segments for 9-12 columns, 6-wide segments beyond
12), and a 15-column table yields exactly 3 segments of widths 6, 6 and 3,
sliced from the row in left-to-right column order. -/
theorem table_segmentation_banding :
    (∀ n : Nat, 1 ≤ n → n ≤ 8 → segmentWidths n = [n]) ∧
    (∀ n : Nat, 9 ≤ n → n ≤ 12 → segmentWidths n = [8, n - 8]) ∧
    (∀ n : Nat, 13 ≤ n → maxColsPerSegment n = 6) ∧
    segmentWidths 15 = [6, 6, 3] ∧
    (∀ row : List String,
      segmentsOfRow 15 row = [row.take 6, (row.drop 6).take 6, (row.drop 12).take 3]) := by
  refine ⟨?_, ?_, ?_, by decide, ?_⟩
  · intro n h1 h2
    interval_cases n <;> decide
  · intro n h1 h2
    interval_cases n <;> decide
  · intro n h
    unfold maxColsPerSegment
    rw [if_neg (by omega), if_neg (by omega)]
  · intro row
    have hseg : colSegments 15 = [0, 6, 12] := by decide
    unfold segmentsOfRow
    rw [hseg]
    simp [maxColsPerSegment]

/-- Witness for C9 at 5, 10 and 20 columns. -/
theorem table_segmentation_banding_witness :
    (1 ≤ 5 ∧ 5 ≤ 8 ∧ segmentWidths 5 = [5]) ∧
    (9 ≤ 10 ∧ 10 ≤ 12 ∧ segmentWidths 10 = [8, 10 - 8]) ∧
    (13 ≤ 20 ∧ maxColsPerSegment 20 = 6) :=
  ⟨⟨by decide, by decide, table_segmentation_banding.1 5 (by decide) (by decide)⟩,
   ⟨by decide, by decide, table_segmentation_banding.2.1 10 (by decide) (by decide)⟩,
   ⟨by decide, table_segmentation_banding.2.2.1 20 (by decide)⟩⟩

end AppPdf

namespace OneNoteV37

theorem takeWhile_append_of_all {p : Char → Bool} :
    ∀ (l1 l2 : List Char), (∀ x ∈ l1, p x = true) →
      (l1 ++ l2).takeWhile p = l1 ++ l2.takeWhile p := by
  intro l1
  induction l1 with
  | nil =>
    intro l2 _
    simp
  | cons a as ih =>
    intro l2 h
    have ha : p a = true := h a (List.mem_cons_self _ _)
    simp only [List.cons_append, List.takeWhile_cons, ha, if_true]
    rw [ih l2 (fun x hx => h x (List.mem_cons_of_mem _ hx))]

theorem takeWhile_eq_self_of_all {p : Char → Bool} (l : List Char)
    (h : ∀ x ∈ l, p x = true) : l.takeWhile p = l := by
  have := takeWhile_append_of_all l [] h
  simpa using this

theorem splitLast_of_no_brace {n : String}
    (h : n.data.all (fun c => c != '}') = true) : splitLast n = n := by
  unfold splitLast
  rw [takeWhile_eq_self_of_all]
  · rw [List.reverse_reverse]
  · intro x hx
    exact List.all_eq_true.mp h x (List.mem_reverse.mp hx)

theorem splitLast_of_suffix {tag n : String}
    (hn : n.data.all (fun c => c != '}') = true)
    (h : ( '}' :: n.data).isSuffixOf tag.data = true) : splitLast tag = n := by
  unfold List.isSuffixOf at h
  obtain ⟨t, ht⟩ := exists_of_isPrefixOf h
  unfold splitLast
  rw [ht]
  rw [show ( '}' :: n.data).reverse ++ t = n.data.reverse ++ ( '}' :: t) by simp]
  rw [takeWhile_append_of_all _ _
    (fun x hx => List.all_eq_true.mp hn x (List.mem_reverse.mp hx))]
  rw [show (( '}' :: t).takeWhile (fun c => c != '}')) = [] from rfl]
  rw [List.append_nil, List.reverse_reverse]

theorem tagMatches_eq_of_no_brace {n : String}
    (hn : n.data.all (fun c => c != '}') = true) (tag : String) :
    tagMatches tag n = (splitLast tag == n) := by
  unfold tagMatches
  cases hsm : (splitLast tag == n) with
  | true => simp [hsm]
  | false =>
    have hne : splitLast tag ≠ n := by simpa using hsm
    cases hsf : ( '}' :: n.data).isSuffixOf tag.data with
    | true => exact absurd (splitLast_of_suffix hn hsf) hne
    | false =>
      cases heq : (tag == n) with
      | true =>
        have : tag = n := by simpa using heq
        subst this
        exact absurd (splitLast_of_no_brace hn) hne
      | false => simp [hsf, heq, hsm]

/-- C10 counterexample: for the name `a}b` (which contains the namespace
separator), `_findall_local` returns the parent element itself — its tag
`x}a}b` matches via `endswith` while its local name `b` differs from the
requested name, so the parent-exclusion test passes. -/
theorem findall_local_returns_parent_on_brace_name :
    findall_local exBraceElem "a\x7db" = [exBraceElem] ∧
    splitLast (Elem.tag exBraceElem) ≠ "a\x7db" :=
  ⟨rfl, by decide⟩

/-- C10 as amended: for every requested name free of the namespace
separator `}`, `_findall_local` returns exactly the proper descendants
whose local tag name equals the requested name, in document (pre-)order;
the parent itself is never included. -/
theorem findall_local_proper_descendants (p : Elem) (n : String)
    (hn : n.data.all (fun c => c != '}') = true) :
    findall_local p n = (properDescendants p).filter (fun e => splitLast e.tag == n) := by
  unfold findall_local
  have hroot : (tagMatches p.tag n && !(splitLast p.tag == n)) = false := by
    rw [tagMatches_eq_of_no_brace hn]
    cases (splitLast p.tag == n) <;> rfl
  rw [hroot]
  simp only [Bool.false_eq_true, if_false, List.nil_append]
  exact List.filter_congr (fun e _ => tagMatches_eq_of_no_brace hn e.tag)

/-- Witness for the amended C10 at a concrete outline tree. -/
theorem findall_local_proper_descendants_witness :
    ("Row".data.all (fun c => c != '}') = true) ∧
    findall_local exOutline "Row"
      = (properDescendants exOutline).filter (fun e => splitLast e.tag == "Row") :=
  ⟨by decide, findall_local_proper_descendants exOutline "Row" (by decide)⟩

end OneNoteV37
